import Mathlib

/-!
Verification of the `pynwm` module `nwm.py` against its specification.

The Python source is shallowly embedded: numpy arrays become `List`s,
datetimes become integer Unix timestamps (seconds), raised exceptions become
`Except.error` / `Option.none` results, and the file system state touched by
the cube builder (scratch files from gzip decompression) is threaded
explicitly as a list of scratch-file paths currently on disk.
-/

namespace Pynwm

/-- Models numpy fancy indexing `xs[is]` of a 1-D array by an integer index
array: `none` models the `IndexError` raised when an index is out of bounds
(the indices arising in `nwm.py` are always non-negative, so wrap-around of
negative indices never occurs and is not modelled). -/
def npFancyIndex {α : Type} (xs : List α) : List Nat → Option (List α)
  | [] => some []
  | i :: rest =>
    match xs[i]?, npFancyIndex xs rest with
    | some x, some r => some (x :: r)
    | _, _ => none

/-- Models `nc_comids.argsort()`: the permutation of positions `0..n-1` that
sorts the array by value. -/
def argsort (nc : List Int) : List Nat :=
  List.insertionSort (fun i j => nc.getD i 0 ≤ nc.getD j 0) (List.range nc.length)

/-- Models `np.searchsorted(xs, v)` (default side, `left`) on a sorted array:
the leftmost insertion position of `v`, which for a sorted array equals the
number of elements strictly below `v`. -/
def searchsorted (xs : List Int) (v : Int) : Nat :=
  xs.countP (fun x => decide (x < v))

/-- nwm.py `_get_comid_indices(find_comids, nc_comids)` (lines 305-312):
argsort the stored ids, binary-search each query id in the sorted array and
map the hit back through the sort permutation.  The result is `none` exactly
when the final fancy-indexing step `sorted_index[found_index_sorted]` raises
`IndexError` (a searchsorted result equal to `len(nc_comids)`).  The
`type(find_comids) != 'numpy.ndarray'` guard in the source compares a type to
a string, hence is always true and `np.array` is always applied; this has no
observable effect and is not modelled. -/
def _get_comid_indices (find_comids nc_comids : List Int) : Option (List Nat) :=
  let sorted_index := argsort nc_comids
  let sorted_nc_comids := sorted_index.map (fun i => nc_comids.getD i 0)
  let found_index_sorted := find_comids.map (fun v => searchsorted sorted_nc_comids v)
  npFancyIndex sorted_index found_index_sorted

theorem argsort_perm (nc : List Int) : (argsort nc).Perm (List.range nc.length) :=
  List.perm_insertionSort _ _

theorem argsort_length (nc : List Int) : (argsort nc).length = nc.length := by
  simpa using (argsort_perm nc).length_eq

theorem argsort_mem_lt (nc : List Int) {i : Nat} (h : i ∈ argsort nc) :
    i < nc.length := by
  have := (argsort_perm nc).mem_iff.mp h
  simpa using this

theorem argsort_sorted (nc : List Int) :
    (argsort nc).Sorted (fun i j => nc.getD i 0 ≤ nc.getD j 0) := by
  exact @List.sorted_insertionSort Nat (fun i j => nc.getD i 0 ≤ nc.getD j 0)
    (fun i j => inferInstance)
    ⟨fun i j => le_total _ _⟩ ⟨fun a b c hab hbc => le_trans hab hbc⟩ (List.range nc.length)

theorem map_getD_range (l : List Int) :
    (List.range l.length).map (fun i => l.getD i 0) = l := by
  induction l with
  | nil => simp
  | cons a t ih =>
      have h1 : List.range (a :: t).length = 0 :: (List.range t.length).map Nat.succ := by
        simpa using List.range_succ_eq_map t.length
      rw [h1]
      simp only [List.map_cons, List.map_map]
      refine congrArg₂ _ rfl ?_
      have : ((fun i => (a :: t).getD i 0) ∘ Nat.succ) = fun i => t.getD i 0 := by
        funext i
        simp [List.getD_cons_succ]
      rw [this, ih]

theorem argsort_map_perm (nc : List Int) :
    ((argsort nc).map (fun i => nc.getD i 0)).Perm nc := by
  have h := (argsort_perm nc).map (fun i => nc.getD i 0)
  rwa [map_getD_range nc] at h

theorem argsort_map_sorted (nc : List Int) :
    ((argsort nc).map (fun i => nc.getD i 0)).Sorted (· ≤ ·) := by
  have h := argsort_sorted nc
  exact (List.pairwise_map).mpr h

theorem getD_mem_of_lt {α : Type} (l : List α) (d : α) {k : Nat} (hk : k < l.length) :
    l.getD k d ∈ l := by
  rw [List.getD_eq_getElem l d hk]
  exact l.getElem_mem hk

theorem getD_map_of_lt {α β : Type} (f : α → β) (l : List α) (d : α) {k : Nat}
    (hk : k < l.length) : (l.map f).getD k (f d) = f (l.getD k d) := by
  rw [List.getD_eq_getElem _ _ (by simpa using hk), List.getD_eq_getElem _ _ hk]
  simp

/-- On a sorted list containing `v`, the `searchsorted` position holds `v`. -/
theorem sorted_getD_searchsorted (s : List Int) (hs : s.Sorted (· ≤ ·))
    (v : Int) (hv : v ∈ s) : s.getD (searchsorted s v) 0 = v := by
  induction s with
  | nil => cases hv
  | cons a t ih =>
      have hat := List.sorted_cons.mp hs
      by_cases hlt : a < v
      · have hvt : v ∈ t := by
          rcases List.mem_cons.mp hv with h | h
          · subst h; exact absurd hlt (lt_irrefl _)
          · exact h
        have : searchsorted (a :: t) v = searchsorted t v + 1 := by
          simp [searchsorted, List.countP_cons, hlt]
        rw [this, List.getD_cons_succ]
        exact ih hat.2 hvt
      · have hz : searchsorted (a :: t) v = 0 := by
          have hva : v = a := by
            rcases List.mem_cons.mp hv with h | h
            · exact h
            · exact le_antisymm (not_lt.mp hlt) (hat.1 v h)
          refine List.countP_eq_zero.mpr ?_
          intro x hx
          rcases List.mem_cons.mp hx with h | h
          · subst h; simpa using hlt
          · have : a ≤ x := hat.1 x h
            simp only [decide_eq_true_eq]
            exact not_lt.mpr (hva ▸ this)
        rw [hz]
        rcases List.mem_cons.mp hv with h | h
        · simpa [List.getD] using h.symm
        · have : v = a := le_antisymm (not_lt.mp hlt) (hat.1 v h)
          simpa [List.getD] using this.symm

theorem searchsorted_lt_length_of_mem (s : List Int) (v : Int) (hv : v ∈ s) :
    searchsorted s v < s.length := by
  refine lt_of_le_of_ne (List.countP_le_length _) ?_
  intro heq
  have : ∀ x ∈ s, decide (x < v) = true := List.countP_eq_length.mp heq
  have := this v hv
  simp at this

theorem npFancyIndex_of_lt {α : Type} (xs : List α) (d : α) :
    ∀ is2 : List Nat, (∀ i ∈ is2, i < xs.length) →
    ∃ out, npFancyIndex xs is2 = some out ∧ out.length = is2.length ∧
      ∀ k, k < is2.length → out.getD k d = xs.getD (is2.getD k 0) d
  | [], _ => ⟨[], rfl, rfl, fun k hk => absurd hk (by simp)⟩
  | i :: rest, h => by
      have hi : i < xs.length := h i (by simp)
      obtain ⟨out, hout, hlen, hval⟩ :=
        npFancyIndex_of_lt xs d rest (fun j hj => h j (List.mem_cons_of_mem _ hj))
      have hx : xs[i]? = some xs[i] := List.getElem?_eq_getElem hi
      refine ⟨xs[i] :: out, ?_, by simpa using hlen, ?_⟩
      · simp [npFancyIndex, hx, hout]
      · intro k hk
        match k with
        | 0 => simpa [List.getD] using (List.getD_eq_getElem xs d hi).symm
        | Nat.succ k' =>
            have hk' : k' < rest.length := by simpa using hk
            simpa [List.getD_cons_succ] using hval k' hk'

theorem npFancyIndex_oob {α : Type} (xs : List α) (i : Nat) (rest : List Nat)
    (h : xs.length ≤ i) : npFancyIndex xs (i :: rest) = none := by
  have hn : xs[i]? = none := List.getElem?_eq_none h
  simp [npFancyIndex, hn]

theorem getD_default_irrel {α : Type} (l : List α) (d d' : α) {k : Nat}
    (hk : k < l.length) : l.getD k d = l.getD k d' := by
  rw [List.getD_eq_getElem l d hk, List.getD_eq_getElem l d' hk]

/-- C1: for every query list of reach identifiers and every stored identifier
array that contains no duplicates and contains every queried id,
`_get_comid_indices` returns a position sequence `idx` with
`stored_ids[idx[k]] == query_ids[k]` for every `k`, for any subset and any
order of the stored ids in the query. -/
theorem get_comid_indices_correct (find_comids nc_comids : List Int)
    (hnodup : nc_comids.Nodup) (hsub : ∀ v ∈ find_comids, v ∈ nc_comids) :
    ∃ idx, _get_comid_indices find_comids nc_comids = some idx ∧
      idx.length = find_comids.length ∧
      ∀ k, k < find_comids.length →
        nc_comids.getD (idx.getD k 0) 0 = find_comids.getD k 0 := by
  clear hnodup
  have hsperm : ((argsort nc_comids).map (fun i => nc_comids.getD i 0)).Perm nc_comids :=
    argsort_map_perm nc_comids
  have hssorted := argsort_map_sorted nc_comids
  have hslen : ((argsort nc_comids).map (fun i => nc_comids.getD i 0)).length
      = (argsort nc_comids).length := by simp
  have hbound : ∀ i ∈ find_comids.map
      (fun v => searchsorted ((argsort nc_comids).map (fun j => nc_comids.getD j 0)) v),
      i < (argsort nc_comids).length := by
    intro i hi
    rcases List.mem_map.mp hi with ⟨v, hv, rfl⟩
    have hvs : v ∈ (argsort nc_comids).map (fun j => nc_comids.getD j 0) :=
      hsperm.mem_iff.mpr (hsub v hv)
    have := searchsorted_lt_length_of_mem _ v hvs
    omega
  obtain ⟨out, hout, hlen, hval⟩ := npFancyIndex_of_lt (argsort nc_comids) 0 _ hbound
  refine ⟨out, ?_, ?_, ?_⟩
  · simpa [_get_comid_indices] using hout
  · simpa using hlen
  · intro k hk
    have hkf : k < (find_comids.map
        (fun v => searchsorted ((argsort nc_comids).map (fun j => nc_comids.getD j 0)) v)).length := by
      simpa using hk
    have h1 := hval k hkf
    have hv : find_comids.getD k 0 ∈ nc_comids :=
      hsub _ (getD_mem_of_lt find_comids 0 hk)
    have hvs : find_comids.getD k 0 ∈ (argsort nc_comids).map (fun j => nc_comids.getD j 0) :=
      hsperm.mem_iff.mpr hv
    have hfk : (find_comids.map
        (fun v => searchsorted ((argsort nc_comids).map (fun j => nc_comids.getD j 0)) v)).getD k 0
        = searchsorted ((argsort nc_comids).map (fun j => nc_comids.getD j 0))
            (find_comids.getD k 0) := by
      rw [getD_default_irrel _ 0
        (searchsorted ((argsort nc_comids).map (fun j => nc_comids.getD j 0)) 0) hkf]
      exact getD_map_of_lt _ find_comids 0 hk
    have hpos : searchsorted ((argsort nc_comids).map (fun j => nc_comids.getD j 0))
        (find_comids.getD k 0) < (argsort nc_comids).length := by
      have := searchsorted_lt_length_of_mem _ _ hvs
      omega
    have h2 : nc_comids.getD
        ((argsort nc_comids).getD (searchsorted
          ((argsort nc_comids).map (fun j => nc_comids.getD j 0)) (find_comids.getD k 0)) 0) 0
        = find_comids.getD k 0 := by
      have hmap2 : ((argsort nc_comids).map (fun j => nc_comids.getD j 0)).getD
          (searchsorted ((argsort nc_comids).map (fun j => nc_comids.getD j 0))
            (find_comids.getD k 0)) (nc_comids.getD 0 0)
          = nc_comids.getD
            ((argsort nc_comids).getD (searchsorted
              ((argsort nc_comids).map (fun j => nc_comids.getD j 0)) (find_comids.getD k 0)) 0) 0 :=
        getD_map_of_lt (fun j => nc_comids.getD j 0) (argsort nc_comids) 0 hpos
      have hdflt : ((argsort nc_comids).map (fun j => nc_comids.getD j 0)).getD
          (searchsorted ((argsort nc_comids).map (fun j => nc_comids.getD j 0))
            (find_comids.getD k 0)) (nc_comids.getD 0 0)
          = ((argsort nc_comids).map (fun j => nc_comids.getD j 0)).getD
          (searchsorted ((argsort nc_comids).map (fun j => nc_comids.getD j 0))
            (find_comids.getD k 0)) 0 :=
        getD_default_irrel _ _ _ (by omega)
      rw [← hmap2, hdflt]
      exact sorted_getD_searchsorted _ hssorted _ hvs
    rw [h1, hfk]
    exact h2

/-- Witness for C1 at a concrete input: query `[2, 3]` against stored
`[3, 1, 2]`. -/
theorem get_comid_indices_correct_witness :
    ([3, 1, 2] : List Int).Nodup ∧ (∀ v ∈ ([2, 3] : List Int), v ∈ ([3, 1, 2] : List Int)) ∧
    ∃ idx, _get_comid_indices [2, 3] [3, 1, 2] = some idx ∧
      idx.length = ([2, 3] : List Int).length ∧
      ∀ k, k < ([2, 3] : List Int).length →
        ([3, 1, 2] : List Int).getD (idx.getD k 0) 0 = ([2, 3] : List Int).getD k 0 :=
  ⟨by decide, by decide, get_comid_indices_correct [2, 3] [3, 1, 2] (by decide) (by decide)⟩

/-- C2 counterexample: the query id `10` is absent from the stored array
`[1, 2, 3]` and is greater than every stored id, so `np.searchsorted` returns
`3 = len(stored)` and the fancy-indexing step `sorted_index[[3]]` raises
`IndexError` (modelled by `none`): the lookup does signal an error rather than
silently returning a position. -/
theorem get_comid_indices_absent_raises :
    (10 : Int) ∉ ([1, 2, 3] : List Int) ∧ _get_comid_indices [10] [1, 2, 3] = none := by
  decide

/-- C2 amended: for an absent query id that is not greater than every stored
id, `_get_comid_indices` silently returns an in-range position holding a
different stored id; for an absent query id greater than every stored id the
fancy-indexing step raises `IndexError` instead of returning silently. -/
theorem get_comid_indices_absent (v : Int) (nc_comids : List Int)
    (habs : v ∉ nc_comids) :
    ((∃ w ∈ nc_comids, v ≤ w) →
      ∃ pos, _get_comid_indices [v] nc_comids = some [pos] ∧
        pos < nc_comids.length ∧ nc_comids.getD pos 0 ≠ v) ∧
    ((∀ w ∈ nc_comids, w < v) → _get_comid_indices [v] nc_comids = none) := by
  have hsperm : ((argsort nc_comids).map (fun i => nc_comids.getD i 0)).Perm nc_comids :=
    argsort_map_perm nc_comids
  constructor
  · rintro ⟨w, hw, hvw⟩
    have hne : searchsorted ((argsort nc_comids).map (fun j => nc_comids.getD j 0)) v
        ≠ ((argsort nc_comids).map (fun j => nc_comids.getD j 0)).length := by
      intro heq
      have hall := List.countP_eq_length.mp heq
      have hws : w ∈ (argsort nc_comids).map (fun j => nc_comids.getD j 0) :=
        hsperm.mem_iff.mpr hw
      have := hall w hws
      simp only [decide_eq_true_eq] at this
      omega
    have hposlt : searchsorted ((argsort nc_comids).map (fun j => nc_comids.getD j 0)) v
        < (argsort nc_comids).length := by
      have hle : searchsorted ((argsort nc_comids).map (fun j => nc_comids.getD j 0)) v
          ≤ ((argsort nc_comids).map (fun j => nc_comids.getD j 0)).length :=
        List.countP_le_length _
      have hlen : ((argsort nc_comids).map (fun j => nc_comids.getD j 0)).length
          = (argsort nc_comids).length := by simp
      omega
    obtain ⟨out, hout, hlen, hval⟩ := npFancyIndex_of_lt (argsort nc_comids) 0
      [searchsorted ((argsort nc_comids).map (fun j => nc_comids.getD j 0)) v]
      (by intro i hi; rcases List.mem_singleton.mp hi with rfl; exact hposlt)
    rcases List.length_eq_one.mp (by simpa using hlen) with ⟨pos, rfl⟩
    have hpos0 : pos = (argsort nc_comids).getD
        (searchsorted ((argsort nc_comids).map (fun j => nc_comids.getD j 0)) v) 0 := by
      have := hval 0 (by simp)
      simpa [List.getD] using this
    refine ⟨pos, ?_, ?_, ?_⟩
    · simpa [_get_comid_indices] using hout
    · rw [hpos0]
      exact argsort_mem_lt nc_comids (getD_mem_of_lt _ 0 hposlt)
    · have hmem : nc_comids.getD pos 0 ∈ nc_comids := by
        rw [hpos0]
        have hmap2 : ((argsort nc_comids).map (fun j => nc_comids.getD j 0)).getD
            (searchsorted ((argsort nc_comids).map (fun j => nc_comids.getD j 0)) v)
            (nc_comids.getD 0 0)
            = nc_comids.getD ((argsort nc_comids).getD
              (searchsorted ((argsort nc_comids).map (fun j => nc_comids.getD j 0)) v) 0) 0 :=
          getD_map_of_lt (fun j => nc_comids.getD j 0) (argsort nc_comids) 0 hposlt
        rw [← hmap2]
        refine hsperm.mem_iff.mp ?_
        refine getD_mem_of_lt _ _ ?_
        simpa using hposlt
      intro hcontr
      rw [hcontr] at hmem
      exact habs hmem
  · intro hall
    have hfull : searchsorted ((argsort nc_comids).map (fun j => nc_comids.getD j 0)) v
        = ((argsort nc_comids).map (fun j => nc_comids.getD j 0)).length := by
      refine List.countP_eq_length.mpr ?_
      intro x hx
      have hxnc : x ∈ nc_comids := hsperm.mem_iff.mp hx
      simpa using hall x hxnc
    have heq : _get_comid_indices [v] nc_comids
        = npFancyIndex (argsort nc_comids)
          [searchsorted ((argsort nc_comids).map (fun j => nc_comids.getD j 0)) v] := rfl
    rw [heq]
    refine npFancyIndex_oob _ _ [] ?_
    have hlen2 : ((argsort nc_comids).map (fun j => nc_comids.getD j 0)).length
        = (argsort nc_comids).length := by simp
    omega

/-- Witness for the C2 amended theorem at the concrete absent id `2` against
stored ids `[1, 3]`. -/
theorem get_comid_indices_absent_witness :
    ((∃ w ∈ ([1, 3] : List Int), (2 : Int) ≤ w) →
      ∃ pos, _get_comid_indices [2] [1, 3] = some [pos] ∧
        pos < ([1, 3] : List Int).length ∧ ([1, 3] : List Int).getD pos 0 ≠ 2) ∧
    ((∀ w ∈ ([1, 3] : List Int), w < 2) → _get_comid_indices [2] [1, 3] = none) :=
  get_comid_indices_absent 2 [1, 3] (by decide)

/-- One result record of the decoded `ts_pairs_data` payload.  The Python
value has the shape `[init, value_list_1, ..., value_list_k, label]`:
`sim_result[0]` is a list whose first entry is the model initialization time
as a Unix timestamp (`sim_result[0][0]`), `sim_result[-1]` is a textual
label, and `sim_result[1:-1]` are the parallel value lists.  Timestamps are
embedded as integer Unix seconds and streamflow values as integers (they are
opaque pass-through data for `_unpack_series`). -/
structure SimResult where
  initList : List Int
  valueLists : List (List Int)
  label : String
deriving DecidableEq

/-- One series dict `{'name': ..., 'dates': ..., 'values': ...}` produced by
`_unpack_series`, with dates as Unix timestamps in seconds. -/
structure Series where
  name : String
  dates : List Int
  values : List Int
deriving DecidableEq

/-- The per-product `(time_step_hrs, offset_hrs)` table of `_unpack_series`
(nwm.py lines 175-186); `none` models the `NameError` that reading the
never-assigned `time_step_hrs` raises for an unknown product. -/
def productTiming : String → Option (Int × Int)
  | "analysis_assim" => some (1, 3)
  | "short_range" => some (1, 1)
  | "medium_range" => some (3, 3)
  | "long_range" => some (6, 6)
  | _ => none

/-- Models `for i, value_list in enumerate(sim_result[1:-1])` building one
series per value list, carrying the running 0-based index. -/
def enumSeries (mk : Nat → List Int → Series) : Nat → List (List Int) → List Series
  | _, [] => []
  | i, vl :: rest => mk i vl :: enumSeries mk (i + 1) rest

/-- The body of the `for sim_result in data_list` loop of `_unpack_series`
(nwm.py lines 192-214) for one record: raise `ValueError` when the first
value list (`sim_result[1]`) is empty, otherwise build one series per value
list, all sharing the date list derived from the first value list's length. -/
def unpackRecord (product : String) (r : SimResult) : Except String (List Series) :=
  if (r.valueLists.headD []).length = 0 then
    Except.error "Empty result set. Try adjusting input parameters"
  else
    match productTiming product with
    | none => Except.error "NameError: time_step_hrs is not defined"
    | some (step, offset) =>
        let model_init_time := r.initList.getD 0 0
        let start_date := model_init_time + 3600 * offset
        let value_count := (r.valueLists.headD []).length
        let series_count := r.valueLists.length
        let dates := (List.range value_count).map
          (fun i => start_date + 3600 * (step * (i : Int)))
        Except.ok (enumSeries (fun i vl =>
          { name := if series_count > 1
              then "Member " ++ toString (i + 1) ++ " " ++ r.label
              else product,
            dates := dates,
            values := vl }) 0 r.valueLists)

/-- nwm.py `_unpack_series(json_data, product)` (lines 172-215).  The
argument is the sole value of the decoded JSON mapping, normalised to a list
of result records exactly as the source does for non-`long_range` products
(`data_list = [data_list]`).  The loop appends each record's series in order
and the first raised exception propagates. -/
def _unpack_series (data_list : List SimResult) (product : String) :
    Except String (List Series) :=
  match data_list with
  | [] => Except.ok []
  | r :: rest =>
      match unpackRecord product r with
      | Except.error e => Except.error e
      | Except.ok s =>
          match _unpack_series rest product with
          | Except.error e => Except.error e
          | Except.ok srest => Except.ok (s ++ srest)

theorem unpackRecord_eq (product : String) (step offset : Int)
    (hp : productTiming product = some (step, offset)) (r : SimResult)
    (hne : ¬ (r.valueLists.headD []).length = 0) :
    unpackRecord product r = Except.ok (enumSeries (fun i vl =>
      { name := if r.valueLists.length > 1
          then "Member " ++ toString (i + 1) ++ " " ++ r.label else product,
        dates := (List.range (r.valueLists.headD []).length).map
          (fun i => r.initList.getD 0 0 + 3600 * offset + 3600 * (step * (i : Int))),
        values := vl }) 0 r.valueLists) := by
  unfold unpackRecord
  rw [if_neg hne, hp]

theorem enumSeries_mem (mk : Nat → List Int → Series) :
    ∀ (l : List (List Int)) (i : Nat) (s : Series), s ∈ enumSeries mk i l →
      ∃ j vl, vl ∈ l ∧ s = mk j vl
  | [], _, _, h => absurd h (by simp [enumSeries])
  | vl :: rest, i, s, h => by
      simp only [enumSeries] at h
      rcases List.mem_cons.mp h with h | h
      · exact ⟨i, vl, by simp, h⟩
      · obtain ⟨j, vl', hvl', rfl⟩ := enumSeries_mem mk rest (i + 1) s h
        exact ⟨j, vl', List.mem_cons_of_mem _ hvl', rfl⟩

theorem unpackRecord_series (product : String) (step offset : Int)
    (hp : productTiming product = some (step, offset)) (r : SimResult)
    (hne : (r.valueLists.headD []).length ≠ 0)
    (hpar : ∀ vl ∈ r.valueLists, vl.length = (r.valueLists.headD []).length) :
    ∃ out, unpackRecord product r = Except.ok out ∧
      ∀ s ∈ out, s.values ∈ r.valueLists ∧
        s.dates = (List.range s.values.length).map
          (fun i => r.initList.getD 0 0 + 3600 * offset + 3600 * (step * (i : Int))) := by
  refine ⟨_, unpackRecord_eq product step offset hp r hne, ?_⟩
  intro s hs
  obtain ⟨j, vl, hvl, rfl⟩ := enumSeries_mem _ _ _ _ hs
  refine ⟨hvl, ?_⟩
  show (List.range (r.valueLists.headD []).length).map
      (fun i => r.initList.getD 0 0 + 3600 * offset + 3600 * (step * (i : Int)))
    = (List.range vl.length).map
      (fun i => r.initList.getD 0 0 + 3600 * offset + 3600 * (step * (i : Int)))
  rw [hpar vl hvl]

theorem unpack_series_all (product : String) (step offset : Int)
    (hp : productTiming product = some (step, offset)) :
    ∀ data_list : List SimResult,
      (∀ r ∈ data_list, (r.valueLists.headD []).length ≠ 0) →
      (∀ r ∈ data_list, ∀ vl ∈ r.valueLists, vl.length = (r.valueLists.headD []).length) →
      ∃ out, _unpack_series data_list product = Except.ok out ∧
        ∀ s ∈ out, ∃ r ∈ data_list, s.values ∈ r.valueLists ∧
          s.dates = (List.range s.values.length).map
            (fun i => r.initList.getD 0 0 + 3600 * offset + 3600 * (step * (i : Int)))
  | [], _, _ => ⟨[], rfl, by simp⟩
  | r :: rest, hne, hpar => by
      obtain ⟨outr, hr, hrs⟩ := unpackRecord_series product step offset hp r
        (hne r (List.mem_cons_self r rest)) (hpar r (List.mem_cons_self r rest))
      obtain ⟨outrest, hrest, hrests⟩ := unpack_series_all product step offset hp rest
        (fun r2 h2 => hne r2 (List.mem_cons_of_mem _ h2))
        (fun r2 h2 => hpar r2 (List.mem_cons_of_mem _ h2))
      refine ⟨outr ++ outrest, ?_, ?_⟩
      · simp only [_unpack_series, hr, hrest]
      · intro s hs
        rcases List.mem_append.mp hs with h | h
        · exact ⟨r, List.mem_cons_self r rest, hrs s h⟩
        · obtain ⟨r2, hr2, hprop⟩ := hrests s h
          exact ⟨r2, List.mem_cons_of_mem _ hr2, hprop⟩

/-- C3: for every payload of well-formed (parallel-value-list) non-empty
result records and every known product, `_unpack_series` assigns to each
value list the date sequence `init_time + offset + step * i` for
`i ∈ [0, len(values))` (in seconds), with the per-product constants
analysis_assim step 1h / offset 3h, short_range 1h/1h, medium_range 3h/3h,
long_range 6h/6h. -/
theorem unpack_series_dates (product : String) (step offset : Int)
    (hp : productTiming product = some (step, offset))
    (data_list : List SimResult)
    (hne : ∀ r ∈ data_list, (r.valueLists.headD []).length ≠ 0)
    (hpar : ∀ r ∈ data_list, ∀ vl ∈ r.valueLists,
      vl.length = (r.valueLists.headD []).length) :
    (∃ out, _unpack_series data_list product = Except.ok out ∧
      ∀ s ∈ out, ∃ r ∈ data_list, s.values ∈ r.valueLists ∧
        s.dates = (List.range s.values.length).map
          (fun i => r.initList.getD 0 0 + 3600 * offset + 3600 * (step * (i : Int)))) ∧
    productTiming "analysis_assim" = some (1, 3) ∧
    productTiming "short_range" = some (1, 1) ∧
    productTiming "medium_range" = some (3, 3) ∧
    productTiming "long_range" = some (6, 6) :=
  ⟨unpack_series_all product step offset hp data_list hne hpar, rfl, rfl, rfl, rfl⟩

/-- Witness for C3: a non-ensemble `analysis_assim` payload with 3 samples
from init epoch 0 yields dates 3h, 4h, 5h (10800, 14400, 18000 seconds). -/
theorem unpack_series_dates_witness :
    (∃ out, _unpack_series [⟨[0], [[5, 6, 7]], "t00z"⟩] "analysis_assim" = Except.ok out ∧
      ∀ s ∈ out, ∃ r ∈ [(⟨[0], [[5, 6, 7]], "t00z"⟩ : SimResult)], s.values ∈ r.valueLists ∧
        s.dates = (List.range s.values.length).map
          (fun i => r.initList.getD 0 0 + 3600 * 3 + 3600 * (1 * (i : Int)))) ∧
    productTiming "analysis_assim" = some (1, 3) ∧
    productTiming "short_range" = some (1, 1) ∧
    productTiming "medium_range" = some (3, 3) ∧
    productTiming "long_range" = some (6, 6) :=
  unpack_series_dates "analysis_assim" 1 3 (by decide) [⟨[0], [[5, 6, 7]], "t00z"⟩]
    (by decide) (by decide)

/-- C4 counterexample: the record `[[0], [5], [], 'x']` has an empty (second)
value list, yet `_unpack_series` returns series instead of raising the
empty-result `ValueError`, because the source only checks `sim_result[1]`,
the first value list. -/
theorem unpack_series_empty_member_cex :
    ([] : List Int) ∈ (⟨[0], [[5], []], "x"⟩ : SimResult).valueLists ∧
    _unpack_series [⟨[0], [[5], []], "x"⟩] "short_range"
      = Except.ok [⟨"Member 1 x", [3600], [5]⟩, ⟨"Member 2 x", [3600], []⟩] := by
  constructor
  · simp
  · rfl

/-- C4 amended: for a known product, `_unpack_series` raises the
empty-result `ValueError` whenever the FIRST value list (`sim_result[1]`) of
some result record is empty; emptiness of later member value lists is not
checked. -/
theorem unpack_series_empty_first_raises (product : String) (step offset : Int)
    (hp : productTiming product = some (step, offset)) :
    ∀ data_list : List SimResult,
      (∃ r ∈ data_list, (r.valueLists.headD []).length = 0) →
      _unpack_series data_list product
        = Except.error "Empty result set. Try adjusting input parameters"
  | [], hex => by
      rcases hex with ⟨r, hr, _⟩
      cases hr
  | r :: rest, hex => by
      by_cases h0 : (r.valueLists.headD []).length = 0
      · have hr : unpackRecord product r
            = Except.error "Empty result set. Try adjusting input parameters" := by
          unfold unpackRecord
          rw [if_pos h0]
        simp only [_unpack_series, hr]
      · have hreq := unpackRecord_eq product step offset hp r h0
        have hex' : ∃ r2 ∈ rest, (r2.valueLists.headD []).length = 0 := by
          rcases hex with ⟨r2, hr2, h2⟩
          rcases List.mem_cons.mp hr2 with heq | hmem
          · exact absurd (heq ▸ h2) h0
          · exact ⟨r2, hmem, h2⟩
        have ih := unpack_series_empty_first_raises product step offset hp rest hex'
        simp only [_unpack_series, hreq, ih]

/-- Witness for the C4 amended theorem: a record whose first value list is
empty raises the empty-result error. -/
theorem unpack_series_empty_first_raises_witness :
    _unpack_series [⟨[0], [[], [1]], "x"⟩] "short_range"
      = Except.error "Empty result set. Try adjusting input parameters" :=
  unpack_series_empty_first_raises "short_range" 1 1 rfl
    [⟨[0], [[], [1]], "x"⟩] ⟨⟨[0], [[], [1]], "x"⟩, List.mem_singleton.mpr rfl, rfl⟩

theorem enumSeries_map_name (mk : Nat → List Int → Series) (g : Nat → String)
    (hg : ∀ i vl, (mk i vl).name = g i) :
    ∀ (l : List (List Int)) (i : Nat),
      (enumSeries mk i l).map Series.name = (List.range l.length).map (fun j => g (i + j))
  | [], i => by simp [enumSeries]
  | vl :: rest, i => by
      have ih := enumSeries_map_name mk g hg rest (i + 1)
      simp only [enumSeries, List.map_cons]
      rw [hg, ih]
      have h1 : List.range (vl :: rest).length = 0 :: (List.range rest.length).map Nat.succ := by
        simpa using List.range_succ_eq_map rest.length
      rw [h1]
      simp only [List.map_cons, List.map_map]
      refine congrArg₂ _ ?_ ?_
      · rw [Nat.add_zero]
      · have h2 : ((fun j => g (i + j)) ∘ Nat.succ) = fun j => g (i + 1 + j) := by
          funext j
          simp only [Function.comp]
          congr 1
          omega
        rw [h2]

/-- C5: for a record with more than one value list each series is named
`Member {1-based-index} {label}`; with exactly one value list the single
series is named exactly the product string; all series of one record share
the same date sequence. -/
theorem unpack_series_names (product : String) (step offset : Int)
    (hp : productTiming product = some (step, offset))
    (r : SimResult) (hne : (r.valueLists.headD []).length ≠ 0) :
    ∃ out, _unpack_series [r] product = Except.ok out ∧
      out.map Series.name
        = (if 1 < r.valueLists.length
           then (List.range r.valueLists.length).map
             (fun i => "Member " ++ toString (i + 1) ++ " " ++ r.label)
           else [product]) ∧
      ∀ s1 ∈ out, ∀ s2 ∈ out, s1.dates = s2.dates := by
  have hreq := unpackRecord_eq product step offset hp r hne
  have hout : _unpack_series [r] product = Except.ok (enumSeries (fun i vl =>
      { name := if r.valueLists.length > 1
          then "Member " ++ toString (i + 1) ++ " " ++ r.label else product,
        dates := (List.range (r.valueLists.headD []).length).map
          (fun i => r.initList.getD 0 0 + 3600 * offset + 3600 * (step * (i : Int))),
        values := vl }) 0 r.valueLists) := by
    simp only [_unpack_series, hreq, List.append_nil]
  refine ⟨_, hout, ?_, ?_⟩
  · have hname := enumSeries_map_name
      (fun i vl =>
        { name := if r.valueLists.length > 1
            then "Member " ++ toString (i + 1) ++ " " ++ r.label else product,
          dates := (List.range (r.valueLists.headD []).length).map
            (fun i => r.initList.getD 0 0 + 3600 * offset + 3600 * (step * (i : Int))),
          values := vl })
      (fun i => if 1 < r.valueLists.length
        then "Member " ++ toString (i + 1) ++ " " ++ r.label else product)
      (fun i vl => rfl) r.valueLists 0
    rw [hname]
    simp only [Nat.zero_add]
    by_cases hk : 1 < r.valueLists.length
    · simp only [if_pos hk]
    · have hk0 : r.valueLists ≠ [] := by
        intro h
        apply hne
        rw [h]
        rfl
      have hkpos : 0 < r.valueLists.length := List.length_pos.mpr hk0
      have hk1 : r.valueLists.length = 1 := by omega
      rw [hk1]
      have hr1 : List.range 1 = [0] := rfl
      rw [hr1]
      simp
  · intro s1 h1 s2 h2
    obtain ⟨j1, vl1, hvl1, rfl⟩ := enumSeries_mem _ _ _ _ h1
    obtain ⟨j2, vl2, hvl2, rfl⟩ := enumSeries_mem _ _ _ _ h2
    rfl

/-- Witness for C5: a 2-member `short_range` record with label `t00z` yields
series named `Member 1 t00z` and `Member 2 t00z` with matching dates. -/
theorem unpack_series_names_witness :
    ∃ out, _unpack_series [⟨[0], [[1, 2], [3, 4]], "t00z"⟩] "short_range" = Except.ok out ∧
      out.map Series.name
        = (if 1 < (⟨[0], [[1, 2], [3, 4]], "t00z"⟩ : SimResult).valueLists.length
           then (List.range (⟨[0], [[1, 2], [3, 4]], "t00z"⟩ : SimResult).valueLists.length).map
             (fun i => "Member " ++ toString (i + 1) ++ " "
               ++ (⟨[0], [[1, 2], [3, 4]], "t00z"⟩ : SimResult).label)
           else ["short_range"]) ∧
      ∀ s1 ∈ out, ∀ s2 ∈ out, s1.dates = s2.dates :=
  unpack_series_names "short_range" 1 1 rfl ⟨[0], [[1, 2], [3, 4]], "t00z"⟩ (by decide)

/-- A COMID as received at the public interface: the data model defines a
COMID as an integer, but `read_q_for_comids`, `subset_channel_file` and
`build_streamflow_cube` also accept lists of decimal strings. -/
inductive Comid
  | int (n : Int)
  | str (s : String)
deriving DecidableEq

/-- Digit value of one character, `none` for a non-digit. -/
def digitVal (c : Char) : Option Nat :=
  if 48 ≤ c.toNat ∧ c.toNat ≤ 57 then some (c.toNat - 48) else none

def parseDigitsAux : List Char → Nat → Option Nat
  | [], acc => some acc
  | c :: rest, acc =>
      match digitVal c with
      | none => none
      | some d => parseDigitsAux rest (acc * 10 + d)

/-- Models Python `int(s)` on a string: an optional leading minus sign
followed by at least one decimal digit; anything else raises `ValueError`
(modelled by `none`). -/
def pyInt (s : String) : Option Int :=
  match s.data with
  | [] => none
  | '-' :: rest =>
      if rest.isEmpty then none
      else (parseDigitsAux rest 0).map (fun n => -(n : Int))
  | l => (parseDigitsAux l 0).map (fun n => (n : Int))

/-- Models Python `int()` applied to one element of the comprehension
`[int(comid) for comid in comids]`: integer values pass through unchanged and
decimal strings parse; a non-numeric string raises `ValueError`. -/
def intOfComid : Comid → Except String Int
  | Comid.int n => Except.ok n
  | Comid.str s =>
      match pyInt s with
      | some n => Except.ok n
      | none => Except.error ("invalid literal for int() with base 10: " ++ s)

def mapIntOfComid : List Comid → Except String (List Int)
  | [] => Except.ok []
  | c :: rest =>
      match intOfComid c with
      | Except.error e => Except.error e
      | Except.ok n =>
          match mapIntOfComid rest with
          | Except.error e => Except.error e
          | Except.ok ns => Except.ok (n :: ns)

def mapAllInt : List Comid → Except String (List Int)
  | [] => Except.ok []
  | Comid.int n :: rest =>
      match mapAllInt rest with
      | Except.error e => Except.error e
      | Except.ok ns => Except.ok (n :: ns)
  | Comid.str _ :: _ => Except.error "unorderable types in comid array"

/-- Models the comid-normalisation prologue shared by the three public
functions: `if len(comids) and type(comids[0]) is str: comids = [int(c) for c
in comids]`.  Only the FIRST element's type is inspected; when it is not a
string no conversion happens and the values are used as numbers directly, so
a stray string element in that case poisons the later numpy comparisons
(modelled as an error). -/
def coerce_comids (comids : List Comid) : Except String (List Int) :=
  match comids.headD (Comid.int 0) with
  | Comid.str _ => mapIntOfComid comids
  | Comid.int _ => mapAllInt comids

theorem mapIntOfComid_length : ∀ l l2, mapIntOfComid l = Except.ok l2 → l2.length = l.length
  | [], l2, h => by
      simp only [mapIntOfComid] at h
      injection h with h2
      subst h2
      rfl
  | c :: rest, l2, h => by
      simp only [mapIntOfComid] at h
      cases hc : intOfComid c with
      | error e => rw [hc] at h; exact absurd h (by simp)
      | ok n =>
          rw [hc] at h
          cases hr : mapIntOfComid rest with
          | error e => rw [hr] at h; exact absurd h (by simp)
          | ok ns =>
              rw [hr] at h
              injection h with h2
              subst h2
              have := mapIntOfComid_length rest ns hr
              simp [this]

theorem mapAllInt_length : ∀ l l2, mapAllInt l = Except.ok l2 → l2.length = l.length
  | [], l2, h => by
      simp only [mapAllInt] at h
      injection h with h2
      subst h2
      rfl
  | Comid.int n :: rest, l2, h => by
      simp only [mapAllInt] at h
      cases hr : mapAllInt rest with
      | error e => rw [hr] at h; exact absurd h (by simp)
      | ok ns =>
          rw [hr] at h
          injection h with h2
          subst h2
          have := mapAllInt_length rest ns hr
          simp [this]
  | Comid.str s :: rest, l2, h => by
      simp only [mapAllInt] at h
      exact absurd h (by simp)

theorem coerce_comids_length (l : List Comid) (l2 : List Int)
    (h : coerce_comids l = Except.ok l2) : l2.length = l.length := by
  unfold coerce_comids at h
  cases hh : l.headD (Comid.int 0) with
  | str s => rw [hh] at h; exact mapIntOfComid_length l l2 h
  | int n => rw [hh] at h; exact mapAllInt_length l l2 h

theorem except_bind_ok {α β : Type} (x : Except String α) (f : α → Except String β)
    (b : β) : (x >>= f) = Except.ok b ↔ ∃ a, x = Except.ok a ∧ f a = Except.ok b := by
  cases x with
  | error e => simp [Bind.bind, Except.bind]
  | ok a => simp [Bind.bind, Except.bind]

def exceptOfOption {α : Type} (o : Option α) (msg : String) : Except String α :=
  match o with
  | some a => Except.ok a
  | none => Except.error msg

theorem exceptOfOption_ok {α : Type} (o : Option α) (msg : String) (a : α) :
    exceptOfOption o msg = Except.ok a ↔ o = some a := by
  cases o <;> simp [exceptOfOption]

/-- A netCDF variable: data type name, dimension names, attributes and the
1-D payload along its reach-indexed (or time) dimension.  Values are embedded
as integers; they are opaque pass-through data for the subset logic. -/
structure NcVar where
  datatype : String
  dims : List String
  attrs : List (String × String)
  data : List Int
deriving DecidableEq

/-- An open netCDF dataset: format name (`data_model`), global attributes,
dimensions (`none` length = unlimited) and named variables in file order
(field `vars` models the Python `Dataset.variables` mapping). -/
structure NcFile where
  data_model : String
  attrs : List (String × String)
  dimensions : List (String × Option Nat)
  vars : List (String × NcVar)
deriving DecidableEq

/-- Models `in_nc.variables[name][:]`: `KeyError` when the variable is
missing. -/
def lookupVarData (f : NcFile) (name : String) : Except String (List Int) :=
  match f.vars.lookup name with
  | some v => Except.ok v.data
  | none => Except.error ("KeyError: " ++ name)

/-- The `vars_to_include` computation of `subset_channel_file` (lines
394-403): start from `['streamflow', 'time']` (or all variable names), then
append or remove `station_id` according to `include_id_var`. -/
def varsToInclude (in_nc : NcFile) (just_streamflow_var include_id_var : Bool) :
    List String :=
  let base := if just_streamflow_var then ["streamflow", "time"]
    else in_nc.vars.map Prod.fst
  if include_id_var ∧ "station_id" ∉ base then base ++ ["station_id"]
  else if ¬ include_id_var ∧ "station_id" ∈ base then base.erase "station_id"
  else base

/-- The `attrs_to_exclude` computation (lines 394-399). -/
def attrsToExclude (just_streamflow_var : Bool) : List String :=
  if just_streamflow_var then ["coordinates"] else []

/-- The output-variable loop of `subset_channel_file` (lines 416-426): each
included variable keeps its type and dimensions, drops the excluded
attributes, and its data is copied in full (`time`) or sliced by the comid
index permutation (everything else). -/
def subsetVars (vti ate : List String) (index : List Nat) :
    List (String × NcVar) → Except String (List (String × NcVar))
  | [] => Except.ok []
  | (name, v) :: rest =>
      if name ∈ vti then
        match (if name = "time" then some v.data else npFancyIndex v.data index) with
        | none => Except.error "IndexError"
        | some nd =>
            match subsetVars vti ate index rest with
            | Except.error e => Except.error e
            | Except.ok rest' =>
                Except.ok ((name,
                  { datatype := v.datatype, dims := v.dims,
                    attrs := v.attrs.filter (fun kv => kv.1 ∉ ate),
                    data := nd }) :: rest')
      else subsetVars vti ate index rest

/-- nwm.py `subset_channel_file` (lines 362-426).  The returned `NcFile` is
the final content of the output dataset; every raised exception
(`ValueError` from `int()`, `KeyError` for a missing `station_id`,
`IndexError` from index resolution or slicing) becomes `Except.error`. -/
def subset_channel_file (in_nc : NcFile) (comids0 : List Comid)
    (just_streamflow_var include_id_var : Bool) : Except String NcFile := do
  let comids ← coerce_comids comids0
  let nc_comids ← lookupVarData in_nc "station_id"
  let index ← exceptOfOption (_get_comid_indices comids nc_comids) "IndexError"
  let outVars ← subsetVars (varsToInclude in_nc just_streamflow_var include_id_var)
    (attrsToExclude just_streamflow_var) index in_nc.vars
  Except.ok
    { data_model := in_nc.data_model,
      attrs := in_nc.attrs,
      dimensions := in_nc.dimensions.map (fun d =>
        if d.1 = "station" then (d.1, some comids.length) else d),
      vars := outVars }

theorem subsetVars_mem (vti ate : List String) (index : List Nat) :
    ∀ (vars out : List (String × NcVar)), subsetVars vti ate index vars = Except.ok out →
      ∀ nv ∈ out, nv.1 ∈ vti ∧ ∀ kv ∈ nv.2.attrs, kv.1 ∉ ate
  | [], out, h, nv, hnv => by
      simp only [subsetVars] at h
      injection h with h2
      subst h2
      cases hnv
  | (name, v) :: rest, out, h, nv, hnv => by
      simp only [subsetVars] at h
      by_cases hmem : name ∈ vti
      · rw [if_pos hmem] at h
        cases hd : (if name = "time" then some v.data else npFancyIndex v.data index) with
        | none => rw [hd] at h; exact absurd h (by simp)
        | some nd =>
            rw [hd] at h
            cases hrest : subsetVars vti ate index rest with
            | error e => rw [hrest] at h; exact absurd h (by simp)
            | ok rest' =>
                rw [hrest] at h
                injection h with h2
                subst h2
                rcases List.mem_cons.mp hnv with heq | hmem2
                · subst heq
                  refine ⟨hmem, ?_⟩
                  intro kv hkv
                  have := List.of_mem_filter hkv
                  simpa using this
                · exact subsetVars_mem vti ate index rest rest' hrest nv hmem2
      · rw [if_neg hmem] at h
        exact subsetVars_mem vti ate index rest out h nv hnv

theorem subsetVars_keeps (vti ate : List String) (index : List Nat) :
    ∀ (vars out : List (String × NcVar)), subsetVars vti ate index vars = Except.ok out →
      ∀ n v, (n, v) ∈ vars → n ∈ vti → ∃ v2, (n, v2) ∈ out
  | [], out, h, n, v, hnv, _ => by cases hnv
  | (name, w) :: rest, out, h, n, v, hnv, hn => by
      simp only [subsetVars] at h
      by_cases hmem : name ∈ vti
      · rw [if_pos hmem] at h
        cases hd : (if name = "time" then some w.data else npFancyIndex w.data index) with
        | none => rw [hd] at h; exact absurd h (by simp)
        | some nd =>
            rw [hd] at h
            cases hrest : subsetVars vti ate index rest with
            | error e => rw [hrest] at h; exact absurd h (by simp)
            | ok rest' =>
                rw [hrest] at h
                injection h with h2
                subst h2
                rcases List.mem_cons.mp hnv with heq | hmem2
                · have hne : n = name := congrArg Prod.fst heq
                  subst hne
                  exact ⟨_, List.mem_cons_self _ _⟩
                · obtain ⟨v2, hv2⟩ :=
                    subsetVars_keeps vti ate index rest rest' hrest n v hmem2 hn
                  exact ⟨v2, List.mem_cons_of_mem _ hv2⟩
      · rw [if_neg hmem] at h
        rcases List.mem_cons.mp hnv with heq | hmem2
        · have hne : n = name := congrArg Prod.fst heq
          rw [hne] at hn
          exact absurd hn hmem
        · exact subsetVars_keeps vti ate index rest out h n v hmem2 hn

/-- C6: when `subset_channel_file` is called with `just_streamflow_var` set
and succeeds, the output file contains only the `streamflow` and `time`
variables, plus `station_id` exactly when `include_id_var` is set; the
`coordinates` attribute is absent from every retained variable; and the
output `station` dimension is sized to the count of requested identifiers. -/
theorem subset_channel_file_just_streamflow (in_nc : NcFile) (comids0 : List Comid)
    (include_id_var : Bool) (out : NcFile)
    (h : subset_channel_file in_nc comids0 true include_id_var = Except.ok out) :
    (∀ nv ∈ out.vars, nv.1 = "streamflow" ∨ nv.1 = "time" ∨
      (nv.1 = "station_id" ∧ include_id_var = true)) ∧
    ((∃ v, ("station_id", v) ∈ out.vars) ↔ include_id_var = true) ∧
    (∀ nv ∈ out.vars, ∀ kv ∈ nv.2.attrs, kv.1 ≠ "coordinates") ∧
    (∀ d ∈ out.dimensions, d.1 = "station" → d.2 = some comids0.length) := by
  unfold subset_channel_file at h
  simp only [except_bind_ok, exceptOfOption_ok, Except.ok.injEq] at h
  obtain ⟨comids, hc, nc_comids, hl, index, hi, outVars, hs, hout⟩ := h
  subst hout
  have hlen := coerce_comids_length comids0 comids hc
  have hsid : ∃ v0, ("station_id", v0) ∈ in_nc.vars := by
    unfold lookupVarData at hl
    cases hlk : in_nc.vars.lookup "station_id" with
    | none => rw [hlk] at hl; exact absurd hl (by simp)
    | some v0 =>
        refine ⟨v0, ?_⟩
        rcases List.lookup_eq_some_iff.mp hlk with ⟨l1, l2, hsplit, _⟩
        rw [hsplit]
        exact List.mem_append_right _ (List.mem_cons_self _ _)
  have hate : attrsToExclude true = ["coordinates"] := rfl
  rw [hate] at hs
  cases include_id_var with
  | true =>
      have hvti : varsToInclude in_nc true true = ["streamflow", "time", "station_id"] := rfl
      rw [hvti] at hs
      refine ⟨?_, ?_, ?_, ?_⟩
      · intro nv hnv
        have hm := (subsetVars_mem _ _ _ _ _ hs nv hnv).1
        simp only [List.mem_cons, List.not_mem_nil, or_false] at hm
        rcases hm with h1 | h1 | h1
        · exact Or.inl h1
        · exact Or.inr (Or.inl h1)
        · exact Or.inr (Or.inr ⟨h1, rfl⟩)
      · constructor
        · intro _; rfl
        · intro _
          obtain ⟨v0, hv0⟩ := hsid
          exact subsetVars_keeps _ _ _ _ _ hs "station_id" v0 hv0 (by simp)
      · intro nv hnv kv hkv
        have hm := (subsetVars_mem _ _ _ _ _ hs nv hnv).2 kv hkv
        simpa using hm
      · intro d hd hstation
        rcases List.mem_map.mp hd with ⟨d0, hd0, rfl⟩
        by_cases hs0 : d0.1 = "station"
        · rw [if_pos hs0]
          simp [hlen]
        · rw [if_neg hs0] at hstation
          exact absurd hstation hs0
  | false =>
      have hvti : varsToInclude in_nc true false = ["streamflow", "time"] := rfl
      rw [hvti] at hs
      refine ⟨?_, ?_, ?_, ?_⟩
      · intro nv hnv
        have hm := (subsetVars_mem _ _ _ _ _ hs nv hnv).1
        simp only [List.mem_cons, List.not_mem_nil, or_false] at hm
        rcases hm with h1 | h1
        · exact Or.inl h1
        · exact Or.inr (Or.inl h1)
      · constructor
        · rintro ⟨v, hv⟩
          have hm := (subsetVars_mem _ _ _ _ _ hs ("station_id", v) hv).1
          exact absurd hm (by simp)
        · intro hff
          exact absurd hff (by simp)
      · intro nv hnv kv hkv
        have hm := (subsetVars_mem _ _ _ _ _ hs nv hnv).2 kv hkv
        simpa using hm
      · intro d hd hstation
        rcases List.mem_map.mp hd with ⟨d0, hd0, rfl⟩
        by_cases hs0 : d0.1 = "station"
        · rw [if_pos hs0]
          simp [hlen]
        · rw [if_neg hs0] at hstation
          exact absurd hstation hs0

/-- A small concrete channel file used as witness input. -/
def demoChannelFile : NcFile :=
  { data_model := "NETCDF4",
    attrs := [("model_output_valid_time", "2016-06-21_15:00:00")],
    dimensions := [("station", some 3), ("time", some 1)],
    vars := [
      ("station_id", { datatype := "i", dims := ["station"], attrs := [], data := [7, 8, 9] }),
      ("streamflow",
        { datatype := "f4", dims := ["station"],
          attrs := [("coordinates", "latitude longitude"), ("units", "meter^3 / sec")],
          data := [10, 20, 30] }),
      ("time", { datatype := "i", dims := ["time"], attrs := [], data := [0] }),
      ("velocity",
        { datatype := "f4", dims := ["station"],
          attrs := [("coordinates", "latitude longitude")], data := [1, 2, 3] })] }

/-- The subset of `demoChannelFile` for comids `[8, 9]` with
`just_streamflow_var` and `include_id_var` set. -/
def demoSubsetFile : NcFile :=
  { data_model := "NETCDF4",
    attrs := [("model_output_valid_time", "2016-06-21_15:00:00")],
    dimensions := [("station", some 2), ("time", some 1)],
    vars := [
      ("station_id", { datatype := "i", dims := ["station"], attrs := [], data := [8, 9] }),
      ("streamflow",
        { datatype := "f4", dims := ["station"],
          attrs := [("units", "meter^3 / sec")], data := [20, 30] }),
      ("time", { datatype := "i", dims := ["time"], attrs := [], data := [0] })] }

/-- Witness for C6 at the concrete input `demoChannelFile` with comids
`[8, 9]`. -/
theorem subset_channel_file_just_streamflow_witness :
    (∀ nv ∈ demoSubsetFile.vars, nv.1 = "streamflow" ∨ nv.1 = "time" ∨
      (nv.1 = "station_id" ∧ true = true)) ∧
    ((∃ v, ("station_id", v) ∈ demoSubsetFile.vars) ↔ true = true) ∧
    (∀ nv ∈ demoSubsetFile.vars, ∀ kv ∈ nv.2.attrs, kv.1 ≠ "coordinates") ∧
    (∀ d ∈ demoSubsetFile.dimensions, d.1 = "station" →
      d.2 = some [Comid.int 8, Comid.int 9].length) :=
  subset_channel_file_just_streamflow demoChannelFile [Comid.int 8, Comid.int 9]
    true demoSubsetFile rfl

/-- The content of one single-time-step model file as consumed by
`build_streamflow_cube`: path name, parsed `model_output_valid_time`
timestamp (Unix seconds), the `streamflow` data and the optional
`station_id` data.  For a `.gz`-named file the content fields describe the
data obtained after decompression.  `onDisk` models `os.path.isfile` for
`combine_files`. -/
structure CubeFile where
  name : String
  valid_time : Int
  streamflow : List Int
  station_id : Option (List Int)
  onDisk : Bool := true
deriving DecidableEq

def dummyCubeFile : CubeFile :=
  { name := "", valid_time := 0, streamflow := [], station_id := none }

/-- Models the gzip check `nc_file[-3:] == '.gz'` (Python slicing takes the
last three characters, or the whole string when shorter). -/
def isGzName (s : String) : Bool :=
  decide (s.data.drop (s.data.length - 3) = ['.', 'g', 'z'])

/-- Models `os.path.basename`: the characters after the last `/`. -/
def basename (s : String) : String :=
  String.mk (s.data.foldl (fun acc c => if c = '/' then [] else acc ++ [c]) [])

/-- The scratch path
`os.path.join(tempfile.gettempdir(), os.path.basename(nc_file)[:-3])` used
for decompressed gzip input (the shared system temp directory is modelled as
`/tmp`; `[:-3]` strips the `.gz` suffix). -/
def scratchName (s : String) : String :=
  "/tmp/" ++ String.mk ((basename s).data.take ((basename s).data.length - 3))

/-- The per-file streamflow read of the cube loop (nwm.py lines 510-518):
the full array when no comids are in play, otherwise resolve (or reuse, when
`consistent_comid_order` holds and a permutation exists) the index
permutation and slice.  Returns the row and the permutation carried to the
next file.  `fname` is the name of the dataset actually opened (the scratch
path for gzipped input), used in the missing-station error message — which
reproduces the source's missing space (`builtbecause`) from implicit string
literal concatenation.  A row whose length differs from `num_rivers` models
the shape error numpy raises on `out_q[i] = ...` assignment. -/
def cubeStep (comids : Option (List Int)) (consistent : Bool) (num_rivers : Nat)
    (f : CubeFile) (fname : String) (indices : Option (List Nat)) :
    Except String (List Int × Option (List Nat)) :=
  match comids with
  | none =>
      if f.streamflow.length = num_rivers then Except.ok (f.streamflow, indices)
      else Except.error "ValueError: could not broadcast input array"
  | some cs =>
      match indices, consistent with
      | some idx, true =>
          match npFancyIndex f.streamflow idx with
          | none => Except.error "IndexError"
          | some row =>
              if row.length = num_rivers then Except.ok (row, some idx)
              else Except.error "ValueError: could not broadcast input array"
      | _, _ =>
          match f.station_id with
          | none => Except.error ("COMIDs provided, but index to COMIDs cannot be built"
              ++ "because " ++ fname ++ " has no station_id variable")
          | some sids =>
              match _get_comid_indices cs sids with
              | none => Except.error "IndexError"
              | some idx =>
                  match npFancyIndex f.streamflow idx with
                  | none => Except.error "IndexError"
                  | some row =>
                      if row.length = num_rivers then Except.ok (row, some idx)
                      else Except.error "ValueError: could not broadcast input array"

/-- The `for i, nc_file in enumerate(nc_files)` loop of
`build_streamflow_cube` (lines 497-521), with the file-system scratch state
threaded explicitly: `scratch` is the list of scratch files currently on
disk.  A `.gz` input is first decompressed to `scratchName` (appended to the
scratch state), the data is read, and the scratch copy removed only after a
successful read — an exception raised inside the `with Dataset(...)` block
propagates before `os.remove` runs, leaving the scratch file behind.
`since` carries `seconds_since_date` (`none` before the first file). -/
def cubeLoop (comids : Option (List Int)) (consistent : Bool) (num_rivers : Nat) :
    List CubeFile → Option (List Nat) → Option Int → List String →
    List String × Except String (List (List Int) × List Int × Option Int)
  | [], _, since, scratch => (scratch, Except.ok ([], [], since))
  | f :: rest, indices, since, scratch =>
      let isGz := isGzName f.name
      let fname := if isGz then scratchName f.name else f.name
      let scratch1 := if isGz then scratch ++ [scratchName f.name] else scratch
      let s0 := since.getD f.valid_time
      match cubeStep comids consistent num_rivers f fname indices with
      | Except.error e => (scratch1, Except.error e)
      | Except.ok (row, idx2) =>
          let scratch2 := if isGz then scratch1.erase (scratchName f.name) else scratch1
          match cubeLoop comids consistent num_rivers rest idx2 (some s0) scratch2 with
          | (scrF, Except.error e) => (scrF, Except.error e)
          | (scrF, Except.ok (rows, times, sOut)) =>
              (scrF, Except.ok (row :: rows, (f.valid_time - s0) :: times, sOut))

/-- The tuple returned by `build_streamflow_cube`: streamflow rows, elapsed
seconds, first file's valid-output timestamp, optional per-reach maxima. -/
abbrev CubeResult := List (List Int) × List Int × Int × Option (List Int)

/-- Models `np.amax(out_q, axis=0)`: per-column maximum over the rows. -/
def colMax : List (List Int) → List Int
  | [] => []
  | r :: rest => rest.foldl (fun a b => List.zipWith max a b) r

/-- The loop-and-return part of `build_streamflow_cube` (lines 488-528),
called with a non-empty file list after comid resolution.  The middle match
arm is unreachable for non-empty input: the first iteration always sets
`seconds_since_date`. -/
def build_core (nc_files : List CubeFile) (comids_eff : Option (List Int))
    (consistent compute_max : Bool) (num_rivers : Nat) :
    List String × Except String (Option CubeResult) :=
  match cubeLoop comids_eff consistent num_rivers nc_files none none [] with
  | (scr, Except.error e) => (scr, Except.error e)
  | (scr, Except.ok (_, _, none)) => (scr, Except.error "TypeError: no first date")
  | (scr, Except.ok (rows, times, some s)) =>
      (scr, Except.ok (some (rows, times, s,
        if compute_max then some (colMax rows) else none)))

/-- The `comids is None` (or empty) branch of `build_streamflow_cube`
(lines 481-486): river count and identifier array come from the first file.
The source opens `nc_files[0]` directly here, so a gzip-compressed first
file cannot be opened as a dataset. -/
def buildFromFirst (nc_files : List CubeFile) (first : CubeFile)
    (consistent compute_max : Bool) :
    List String × Except String (Option CubeResult) :=
  if isGzName first.name then
    ([], Except.error ("OSError: unable to open dataset " ++ first.name))
  else
    build_core nc_files first.station_id consistent compute_max first.streamflow.length

/-- nwm.py `build_streamflow_cube` (lines 429-528).  The first component of
the result is the list of scratch files left on disk when the call returns
or raises; the second models the return value, with `ok none` for the bare
`return` on an empty file list and `error` for a raised exception. -/
def build_streamflow_cube (nc_files : List CubeFile) (comids0 : Option (List Comid))
    (consistent_comid_order compute_max : Bool) :
    List String × Except String (Option CubeResult) :=
  match nc_files with
  | [] => ([], Except.ok none)
  | first :: _ =>
      match comids0 with
      | some cs =>
          if cs.length ≠ 0 then
            match coerce_comids cs with
            | Except.error e => ([], Except.error e)
            | Except.ok cints =>
                build_core nc_files (some cints) consistent_comid_order compute_max
                  cints.length
          else
            buildFromFirst nc_files first consistent_comid_order compute_max
      | none => buildFromFirst nc_files first consistent_comid_order compute_max

theorem cubeLoop_times (comids : Option (List Int)) (consistent : Bool) (num_rivers : Nat) :
    ∀ (files : List CubeFile) (indices : Option (List Nat)) (s0 : Int)
      (scratch scr : List String) (rows : List (List Int)) (times : List Int)
      (sOut : Option Int),
      cubeLoop comids consistent num_rivers files indices (some s0) scratch
        = (scr, Except.ok (rows, times, sOut)) →
      times = files.map (fun f => f.valid_time - s0) ∧ sOut = some s0
  | [], indices, s0, scratch, scr, rows, times, sOut, h => by
      simp only [cubeLoop] at h
      injection h with hA hB
      injection hB with hC
      injection hC with h1 hD
      injection hD with h2 h3
      subst h1
      subst h2
      subst h3
      exact ⟨rfl, rfl⟩
  | f :: rest, indices, s0, scratch, scr, rows, times, sOut, h => by
      simp only [cubeLoop, Option.getD_some] at h
      split at h
      · injection h with hA hB
        exact absurd hB (by simp)
      · split at h
        · injection h with hA hB
          exact absurd hB (by simp)
        · injection h with hA hB
          injection hB with hC
          injection hC with h1 hD
          injection hD with h2 h3
          subst h1
          subst h2
          subst h3
          obtain ⟨ht, hs⟩ := cubeLoop_times comids consistent num_rivers rest _ s0
            _ _ _ _ _ (by assumption)
          subst ht
          exact ⟨by simp, hs⟩

theorem cubeLoop_times_start (comids : Option (List Int)) (consistent : Bool)
    (num_rivers : Nat) (f : CubeFile) (rest : List CubeFile)
    (indices : Option (List Nat)) (scratch scr : List String)
    (rows : List (List Int)) (times : List Int) (sOut : Option Int)
    (h : cubeLoop comids consistent num_rivers (f :: rest) indices none scratch
      = (scr, Except.ok (rows, times, sOut))) :
    times = (f :: rest).map (fun g => g.valid_time - f.valid_time) ∧
    sOut = some f.valid_time := by
  simp only [cubeLoop, Option.getD_none] at h
  split at h
  · injection h with hA hB
    exact absurd hB (by simp)
  · split at h
    · injection h with hA hB
      exact absurd hB (by simp)
    · injection h with hA hB
      injection hB with hC
      injection hC with h1 hD
      injection hD with h2 h3
      subst h1
      subst h2
      subst h3
      obtain ⟨ht, hs⟩ := cubeLoop_times comids consistent num_rivers rest _ f.valid_time
        _ _ _ _ _ (by assumption)
      subst ht
      exact ⟨by simp, hs⟩

theorem build_core_ok (nc_files : List CubeFile) (comids_eff : Option (List Int))
    (consistent compute_max : Bool) (num_rivers : Nat) (scr : List String)
    (q : List (List Int)) (t : List Int) (s : Int) (m : Option (List Int))
    (h : build_core nc_files comids_eff consistent compute_max num_rivers
      = (scr, Except.ok (some (q, t, s, m)))) :
    cubeLoop comids_eff consistent num_rivers nc_files none none []
      = (scr, Except.ok (q, t, some s)) := by
  unfold build_core at h
  split at h
  · injection h with hA hB
    exact absurd hB (by simp)
  · injection h with hA hB
    exact absurd hB (by simp)
  · injection h with hA hB
    injection hB with hC
    injection hC with hD
    injection hD with h1 hE
    injection hE with h2 hF
    injection hF with h3 h4
    subst h1
    subst h2
    subst h3
    subst hA
    assumption

theorem buildFromFirst_ok (nc_files : List CubeFile) (first : CubeFile)
    (consistent compute_max : Bool) (scr : List String) (q : List (List Int))
    (t : List Int) (s : Int) (m : Option (List Int))
    (h : buildFromFirst nc_files first consistent compute_max
      = (scr, Except.ok (some (q, t, s, m)))) :
    cubeLoop first.station_id consistent first.streamflow.length nc_files none none []
      = (scr, Except.ok (q, t, some s)) := by
  unfold buildFromFirst at h
  split at h
  · injection h with hA hB
    exact absurd hB (by simp)
  · exact build_core_ok _ _ _ _ _ _ _ _ _ _ h

theorem cubeLoop_to_times (first : CubeFile) (rest : List CubeFile)
    (comids_eff : Option (List Int)) (consistent : Bool) (num_rivers : Nat)
    (scr : List String) (q : List (List Int)) (t : List Int) (s : Int)
    (h : cubeLoop comids_eff consistent num_rivers (first :: rest) none none []
      = (scr, Except.ok (q, t, some s))) :
    t = (first :: rest).map (fun g => g.valid_time - first.valid_time) ∧
    s = first.valid_time := by
  obtain ⟨ht, hs⟩ := cubeLoop_times_start comids_eff consistent num_rivers first rest
    none [] scr q t (some s) h
  injection hs with hs2
  exact ⟨ht, hs2⟩

/-- C7: whenever `build_streamflow_cube` returns a cube, the time array maps
each file, in order, to the elapsed whole seconds between its
`model_output_valid_time` and the first file's (0 for the first file),
independently of which reaches were requested, and the returned reference
timestamp is the first file's valid-output time. -/
theorem build_cube_times (nc_files : List CubeFile) (comids0 : Option (List Comid))
    (consistent_comid_order compute_max : Bool) (scr : List String)
    (q : List (List Int)) (t : List Int) (s : Int) (m : Option (List Int))
    (h : build_streamflow_cube nc_files comids0 consistent_comid_order compute_max
      = (scr, Except.ok (some (q, t, s, m)))) :
    t = nc_files.map (fun f => f.valid_time - (nc_files.headD dummyCubeFile).valid_time) ∧
    s = (nc_files.headD dummyCubeFile).valid_time := by
  cases nc_files with
  | nil =>
      simp only [build_streamflow_cube] at h
      injection h with hA hB
      exact absurd hB (by simp)
  | cons first rest =>
      cases comids0 with
      | none =>
          simp only [build_streamflow_cube] at h
          exact cubeLoop_to_times first rest _ _ _ _ _ _ _
            (buildFromFirst_ok _ _ _ _ _ _ _ _ _ h)
      | some cs =>
          simp only [build_streamflow_cube] at h
          split at h
          · split at h
            · injection h with hA hB
              exact absurd hB (by simp)
            · exact cubeLoop_to_times first rest _ _ _ _ _ _ _
                (build_core_ok _ _ _ _ _ _ _ _ _ _ h)
          · exact cubeLoop_to_times first rest _ _ _ _ _ _ _
              (buildFromFirst_ok _ _ _ _ _ _ _ _ _ h)

/-- Three concrete single-step files one hour apart. -/
def demoCubeFiles : List CubeFile :=
  [{ name := "a.nc", valid_time := 100, streamflow := [1, 5], station_id := some [7, 8] },
   { name := "b.nc", valid_time := 3700, streamflow := [9, 2], station_id := some [7, 8] },
   { name := "c.nc", valid_time := 7300, streamflow := [3, 3], station_id := some [7, 8] }]

/-- Witness for C7: the three demo files at T, T+1h, T+2h yield the elapsed
array `[0, 3600, 7200]`. -/
theorem build_cube_times_witness :
    [0, 3600, 7200] = demoCubeFiles.map
      (fun f => f.valid_time - (demoCubeFiles.headD dummyCubeFile).valid_time) ∧
    (100 : Int) = (demoCubeFiles.headD dummyCubeFile).valid_time :=
  build_cube_times demoCubeFiles (some [Comid.int 8, Comid.int 7]) true true
    [] [[5, 1], [2, 9], [3, 3]] [0, 3600, 7200] 100 (some [5, 9]) rfl

/-- C8 counterexample: processing the single gzip input `a.nc.gz` with
requested comids raises (the file has no `station_id` variable), and the
scratch copy `/tmp/a.nc` is left on disk: `os.remove(tmpfile)` is only
reached after the `with Dataset(...)` block completes normally, so the
error path skips the deletion. -/
theorem build_cube_scratch_cex :
    build_streamflow_cube
      [{ name := "a.nc.gz", valid_time := 0, streamflow := [1], station_id := none }]
      (some [Comid.int 5]) true true
      = (["/tmp/a.nc"],
         Except.error
           "COMIDs provided, but index to COMIDs cannot be builtbecause /tmp/a.nc has no station_id variable") := by
  rfl

theorem cubeLoop_scratch_clean (comids : Option (List Int)) (consistent : Bool)
    (num_rivers : Nat) :
    ∀ (files : List CubeFile) (indices : Option (List Nat)) (since : Option Int)
      (scr : List String) (r : List (List Int) × List Int × Option Int),
      cubeLoop comids consistent num_rivers files indices since []
        = (scr, Except.ok r) → scr = []
  | [], indices, since, scr, r, h => by
      simp only [cubeLoop] at h
      injection h with hA hB
      exact hA.symm
  | f :: rest, indices, since, scr, r, h => by
      by_cases hgz : isGzName f.name = true
      · simp only [cubeLoop, hgz, if_true, eq_self_iff_true, List.nil_append,
          List.erase_cons_head] at h
        cases hstep : cubeStep comids consistent num_rivers f (scratchName f.name) indices with
        | error e =>
            simp only [hstep] at h
            injection h with hA hB
            exact absurd hB (by simp)
        | ok pr =>
            obtain ⟨row, idx2⟩ := pr
            simp only [hstep] at h
            cases hrec : cubeLoop comids consistent num_rivers rest idx2
                (some (since.getD f.valid_time)) [] with
            | mk scrF r2 =>
                cases r2 with
                | error e =>
                    simp only [hrec] at h
                    injection h with hA hB
                    exact absurd hB (by simp)
                | ok r3 =>
                    obtain ⟨rows2, times2, sOut2⟩ := r3
                    simp only [hrec] at h
                    injection h with hA hB
                    rw [← hA]
                    exact cubeLoop_scratch_clean comids consistent num_rivers rest
                      idx2 (some (since.getD f.valid_time)) scrF _ hrec
      · simp only [cubeLoop, hgz, if_false, eq_self_iff_true, Bool.false_eq_true,
          if_neg] at h
        cases hstep : cubeStep comids consistent num_rivers f f.name indices with
        | error e =>
            simp only [hstep] at h
            injection h with hA hB
            exact absurd hB (by simp)
        | ok pr =>
            obtain ⟨row, idx2⟩ := pr
            simp only [hstep] at h
            cases hrec : cubeLoop comids consistent num_rivers rest idx2
                (some (since.getD f.valid_time)) [] with
            | mk scrF r2 =>
                cases r2 with
                | error e =>
                    simp only [hrec] at h
                    injection h with hA hB
                    exact absurd hB (by simp)
                | ok r3 =>
                    obtain ⟨rows2, times2, sOut2⟩ := r3
                    simp only [hrec] at h
                    injection h with hA hB
                    rw [← hA]
                    exact cubeLoop_scratch_clean comids consistent num_rivers rest
                      idx2 (some (since.getD f.valid_time)) scrF _ hrec

theorem build_core_scratch (nc_files : List CubeFile) (comids_eff : Option (List Int))
    (consistent compute_max : Bool) (num_rivers : Nat) (scr : List String)
    (res : Option CubeResult)
    (h : build_core nc_files comids_eff consistent compute_max num_rivers
      = (scr, Except.ok res)) : scr = [] := by
  unfold build_core at h
  split at h
  · injection h with hA hB
    exact absurd hB (by simp)
  · injection h with hA hB
    exact absurd hB (by simp)
  · injection h with hA hB
    rw [← hA]
    exact cubeLoop_scratch_clean comids_eff consistent num_rivers nc_files none none
      _ _ (by assumption)

/-- C8 amended: when `build_streamflow_cube` returns normally no scratch file
remains on disk — each gzip scratch copy is removed right after that file's
data has been consumed; but when an error interrupts the processing of a
file, the deletion is skipped and that file's scratch copy remains on disk
(exhibited by the counterexample). -/
theorem build_cube_scratch_clean_on_ok (nc_files : List CubeFile)
    (comids0 : Option (List Comid)) (consistent_comid_order compute_max : Bool)
    (scr : List String) (res : Option CubeResult)
    (h : build_streamflow_cube nc_files comids0 consistent_comid_order compute_max
      = (scr, Except.ok res)) : scr = [] := by
  cases nc_files with
  | nil =>
      simp only [build_streamflow_cube] at h
      injection h with hA hB
      exact hA.symm
  | cons first rest =>
      have hbf : ∀ h2 : buildFromFirst (first :: rest) first consistent_comid_order
          compute_max = (scr, Except.ok res), scr = [] := by
        intro h2
        unfold buildFromFirst at h2
        split at h2
        · injection h2 with hA hB
          exact absurd hB (by simp)
        · exact build_core_scratch _ _ _ _ _ _ _ h2
      cases comids0 with
      | none =>
          simp only [build_streamflow_cube] at h
          exact hbf h
      | some cs =>
          simp only [build_streamflow_cube] at h
          split at h
          · split at h
            · injection h with hA hB
              exact absurd hB (by simp)
            · exact build_core_scratch _ _ _ _ _ _ _ h
          · exact hbf h

/-- Witness for the C8 amended theorem: a successful run over one gzip file
leaves no scratch file behind. -/
theorem build_cube_scratch_clean_on_ok_witness : ([] : List String) = [] :=
  build_cube_scratch_clean_on_ok
    [{ name := "d.nc.gz", valid_time := 50, streamflow := [4], station_id := some [7] }]
    (some [Comid.int 7]) true true [] (some ([[4]], [0], 50, some [4])) rfl

/-- The consolidated output dataset written by `combine_files`. -/
structure CombinedFile where
  time_dim : Nat
  station_dim : Nat
  time_units : String
  time : List Int
  station_id : Option (List Int)
  streamflow : List (List Int)
  max_streamflow : Option (List Int)
deriving DecidableEq

/-- Models the `units` attribute text
`'seconds since {0}'.format(seconds_since_date.strftime(...))`, with the
reference timestamp rendered as its integer value. -/
def timeUnitsOf (s : Int) : String := "seconds since " ++ toString s

/-- nwm.py `combine_files` (lines 531-600).  The Boolean in the result
records whether the output dataset was opened for writing
(`Dataset(output_file, 'w')`, line 576): `false` means the failure happened
before any output file was created.  Note that the source always calls the
cube builder with `compute_max` left at its default `True` (line 566); its
own `compute_max` argument only controls whether `max_streamflow` is
written.  Writing a string-comid list into the integer `station_id`
variable, or a comid list of the wrong length, is modelled as an error
raised after output creation. -/
def combine_files (nc_files0 : List CubeFile) (comids0 : Option (List Comid))
    (consistent_comid_order compute_max : Bool) :
    Bool × Except String CombinedFile :=
  let nc_files := nc_files0.filter (fun f => f.onDisk)
  if nc_files.isEmpty then (false, Except.error "No files to combine")
  else
    match (build_streamflow_cube nc_files comids0 consistent_comid_order true).2 with
    | Except.error e => (false, Except.error e)
    | Except.ok none => (false, Except.error "TypeError: cannot unpack None")
    | Except.ok (some (q, t, s, max_q)) =>
        let first := nc_files.headD dummyCubeFile
        let num_rivers := (q.headD []).length
        match (match comids0 with
               | none =>
                   if isGzName first.name then
                     Except.error ("OSError: unable to open dataset " ++ first.name)
                   else Except.ok first.station_id
               | some _ => Except.ok none : Except String (Option (List Int))) with
        | Except.error e => (false, Except.error e)
        | Except.ok pre =>
            match (match comids0 with
                   | none => Except.ok pre
                   | some cs =>
                       match mapAllInt cs with
                       | Except.error e => Except.error e
                       | Except.ok ints =>
                           if ints.length = num_rivers then Except.ok (some ints)
                           else Except.error "ValueError: could not broadcast input array"
                   : Except String (Option (List Int))) with
            | Except.error e => (true, Except.error e)
            | Except.ok sids =>
                (true, Except.ok
                  { time_dim := nc_files.length, station_dim := num_rivers,
                    time_units := timeUnitsOf s, time := t, station_id := sids,
                    streamflow := q,
                    max_streamflow := if compute_max then max_q else none })

/-- C9: `combine_files` filters its input list down to the files that exist
on disk; when none remain it raises the missing-files error, with the output
file never opened or written (created flag `false`). -/
theorem combine_files_empty_filter (nc_files0 : List CubeFile)
    (comids0 : Option (List Comid)) (consistent_comid_order compute_max : Bool)
    (h : nc_files0.filter (fun f => f.onDisk) = []) :
    combine_files nc_files0 comids0 consistent_comid_order compute_max
      = (false, Except.error "No files to combine") := by
  unfold combine_files
  simp [h]

/-- Witness for C9: a file list whose only entry does not exist on disk. -/
theorem combine_files_empty_filter_witness :
    combine_files
      [{ name := "gone.nc", valid_time := 0, streamflow := [], station_id := none,
         onDisk := false }] none true true
      = (false, Except.error "No files to combine") :=
  combine_files_empty_filter _ none true true rfl

/-- nwm.py `read_q_for_comids` (lines 315-359): reads the valid-output
timestamp and the streamflow values for the requested comids, in request
order.  The returned pair models the `{'flows': ..., 'datetime': ...}`
dictionary. -/
def read_q_for_comids (f : CubeFile) (comids0 : List Comid) :
    Except String (List Int × Int) :=
  match coerce_comids comids0 with
  | Except.error e => Except.error e
  | Except.ok comids =>
      match f.station_id with
      | none => Except.error "KeyError: station_id"
      | some nc_comids =>
          match _get_comid_indices comids nc_comids with
          | none => Except.error "IndexError"
          | some indices =>
              match npFancyIndex f.streamflow indices with
              | none => Except.error "IndexError"
              | some flows => Except.ok (flows, f.valid_time)

theorem mapIntOfComid_strs : ∀ (ss : List String) (vs : List Int),
    ss.map pyInt = vs.map some →
    mapIntOfComid (ss.map Comid.str) = Except.ok vs
  | [], vs, h => by
      have : vs = [] := by
        cases vs with
        | nil => rfl
        | cons v vs' => exact absurd h (by simp)
      subst this
      rfl
  | s :: ss', vs, h => by
      cases vs with
      | nil => exact absurd h (by simp)
      | cons v vs' =>
          simp only [List.map_cons, List.cons.injEq] at h
          obtain ⟨h1, h2⟩ := h
          have ih := mapIntOfComid_strs ss' vs' h2
          simp only [List.map_cons, mapIntOfComid, intOfComid, h1, ih]

theorem mapAllInt_ints : ∀ vs : List Int, mapAllInt (vs.map Comid.int) = Except.ok vs
  | [] => rfl
  | v :: vs' => by
      simp only [List.map_cons, mapAllInt, mapAllInt_ints vs']

theorem coerce_str_ok (ss : List String) (vs : List Int)
    (hparse : ss.map pyInt = vs.map some) (hne : ss ≠ []) :
    coerce_comids (ss.map Comid.str) = Except.ok vs := by
  cases ss with
  | nil => exact absurd rfl hne
  | cons s ss' =>
      unfold coerce_comids
      simp only [List.map_cons, List.headD_cons]
      exact mapIntOfComid_strs (s :: ss') vs hparse

theorem coerce_int_ok (vs : List Int) :
    coerce_comids (vs.map Comid.int) = Except.ok vs := by
  cases vs with
  | nil => rfl
  | cons v vs' =>
      unfold coerce_comids
      simp only [List.map_cons, List.headD_cons]
      exact mapAllInt_ints (v :: vs')

/-- C10: the public operations `read_q_for_comids`, `subset_channel_file`
and `build_streamflow_cube` accept decimal-string COMID lists: when the
first element is a decimal string, every element is converted to its integer
value before indices are resolved, and each call returns exactly the result
of the corresponding integer-list call. -/
theorem string_comids_equiv (ss : List String) (vs : List Int)
    (hparse : ss.map pyInt = vs.map some) (hne : ss ≠ [])
    (f : CubeFile) (in_nc : NcFile) (jsv iid cc cm : Bool) (files : List CubeFile) :
    read_q_for_comids f (ss.map Comid.str) = read_q_for_comids f (vs.map Comid.int) ∧
    subset_channel_file in_nc (ss.map Comid.str) jsv iid
      = subset_channel_file in_nc (vs.map Comid.int) jsv iid ∧
    build_streamflow_cube files (some (ss.map Comid.str)) cc cm
      = build_streamflow_cube files (some (vs.map Comid.int)) cc cm := by
  have hs := coerce_str_ok ss vs hparse hne
  have hi := coerce_int_ok vs
  have hvs : vs ≠ [] := by
    intro hnil
    subst hnil
    cases ss with
    | nil => exact hne rfl
    | cons a b => exact absurd hparse (by simp)
  refine ⟨?_, ?_, ?_⟩
  · unfold read_q_for_comids
    rw [hs, hi]
  · unfold subset_channel_file
    rw [hs, hi]
  · cases files with
    | nil => rfl
    | cons first rest =>
        have h1 : (ss.map Comid.str).length ≠ 0 := by
          simpa using fun hcon => hne (List.length_eq_zero.mp hcon)
        have h2 : (vs.map Comid.int).length ≠ 0 := by
          simpa using fun hcon => hvs (List.length_eq_zero.mp hcon)
        simp only [build_streamflow_cube]
        rw [if_pos h1, if_pos h2, hs, hi]

/-- Witness for C10 at the string list `["8", "9"]` and integer list
`[8, 9]`, over the demo channel file and demo cube files. -/
theorem string_comids_equiv_witness :
    read_q_for_comids (demoCubeFiles.headD dummyCubeFile) (["8", "9"].map Comid.str)
      = read_q_for_comids (demoCubeFiles.headD dummyCubeFile) (([8, 9] : List Int).map Comid.int) ∧
    subset_channel_file demoChannelFile (["8", "9"].map Comid.str) true true
      = subset_channel_file demoChannelFile (([8, 9] : List Int).map Comid.int) true true ∧
    build_streamflow_cube demoCubeFiles (some (["8", "9"].map Comid.str)) true true
      = build_streamflow_cube demoCubeFiles (some (([8, 9] : List Int).map Comid.int)) true true :=
  string_comids_equiv ["8", "9"] [8, 9] (by decide) (by decide)
    (demoCubeFiles.headD dummyCubeFile) demoChannelFile true true true true demoCubeFiles

end Pynwm
